import Mathlib

/-!
Verification of `business_day_finder` (`business_day_finder.py`).

Shallow embedding conventions:

* A Python `datetime.date` is represented by its proleptic-Gregorian ordinal
  (`date.toordinal()`: day 1 is 0001-01-01) as an unbounded `Int` (a "date"
  below always means such an ordinal), matching the
  data model of the design document ("a plain (year, month, day) value",
  compared purely on identity, on an unbounded date line).
* Python integer `//` and `%` are `Int.fdiv` and `Int.emod` (floor division and
  nonnegative remainder for positive divisors), exactly as in Python.
* The external `holidays` provider is an explicit function parameter
  `provider : String → String → List Int → List Int` returning the date keys
  of `holidays.country_holidays(country, subdiv, years)`.
* A Python `dict` whose ordering matters (`locations_dict`) is an association
  list; `d[k]` access is `lookupKey`, with `none` standing for `KeyError`.
* Functions that can raise `ValueError` / `KeyError` return `Except String _`
  carrying the exception message.
-/

namespace BusinessDayFinder

/-! ## Calendar arithmetic (CPython `datetime` internals)

`_is_leap`, `_DAYS_BEFORE_MONTH`, `_days_before_year`, `_ymd2ord` and
`date.weekday` from CPython's `datetime` module, which define the meaning of
`datetime(year, month, day)`, `timedelta(days=1)` steps and `.weekday()` in the
source. -/

/-- CPython `_is_leap(year)`: `year % 4 == 0 and (year % 100 != 0 or year % 400 == 0)`. -/
def isLeap (year : Int) : Bool :=
  year % 4 == 0 && (year % 100 != 0 || year % 400 == 0)

/-- CPython `_DAYS_IN_MONTH[month]` with the February leap adjustment of
`_days_in_month(year, month)`. -/
def daysInMonth (year month : Int) : Int :=
  if month = 2 then (if isLeap year then 29 else 28)
  else if month = 4 ∨ month = 6 ∨ month = 9 ∨ month = 11 then 30
  else 31

/-- CPython `_DAYS_BEFORE_MONTH[month]` (cumulative days before each month in a
non-leap year). -/
def daysBeforeMonthTable (month : Int) : Int :=
  if month = 1 then 0 else if month = 2 then 31 else if month = 3 then 59
  else if month = 4 then 90 else if month = 5 then 120 else if month = 6 then 151
  else if month = 7 then 181 else if month = 8 then 212 else if month = 9 then 243
  else if month = 10 then 273 else if month = 11 then 304 else 334

/-- CPython `_days_before_month(year, month)`. -/
def daysBeforeMonth (year month : Int) : Int :=
  daysBeforeMonthTable month + (if 2 < month ∧ isLeap year then 1 else 0)

/-- CPython `_days_before_year(year)`: `y*365 + y//4 - y//100 + y//400` for
`y = year - 1`. -/
def daysBeforeYear (year : Int) : Int :=
  (year - 1) * 365 + (year - 1).fdiv 4 - (year - 1).fdiv 100 + (year - 1).fdiv 400

/-- CPython `_ymd2ord(year, month, day)`: the ordinal of a calendar date. -/
def ymd2ord (year month day : Int) : Int :=
  daysBeforeYear year + daysBeforeMonth year month + day

/-- CPython `date.weekday()`: Monday is 0 … Sunday is 6; ordinal 1 (0001-01-01)
is a Monday. -/
def weekday (o : Int) : Int :=
  (o + 6) % 7

/-! ## `find_business_day` (the Business Day Walker)

```python
step = 1 if direction == 'next' else -1
current_date = base_date
while current_date in weekends_and_holiday_dates:
    current_date += timedelta(days=step)
return current_date
```

The `while` loop is the recursion `walkLoop`; it terminates because each
iteration happens at a date that is a member of the finite exclusion list and
moves strictly away from the remaining members in the walking direction, so the
number of members still ahead strictly decreases. -/

/-- Members of `excl` not yet passed when standing at `cur` and walking with
`step` (+1: members at or above `cur`; otherwise members at or below `cur`).
Termination measure for the `while` loop. -/
def membersAhead (excl : List Int) (step : Int) (cur : Int) : Nat :=
  if step = 1 then excl.countP (fun x => decide (cur ≤ x))
  else excl.countP (fun x => decide (x ≤ cur))

lemma countP_lt_of_mem {α : Type} (l : List α) (p q : α → Bool) (a : α)
    (ha : a ∈ l) (hpa : p a = true) (hqa : q a = false)
    (hpq : ∀ x, q x = true → p x = true) :
    l.countP q < l.countP p := by
  induction l with
  | nil => cases ha
  | cons b l ih =>
    rcases List.mem_cons.mp ha with rfl | hmem
    · rw [List.countP_cons, List.countP_cons, hpa, hqa]
      have : l.countP q ≤ l.countP p := List.countP_mono_left (fun x _ hx => hpq x hx)
      simp
      omega
    · rw [List.countP_cons, List.countP_cons]
      have hlt : l.countP q < l.countP p := ih hmem
      by_cases hqb : q b = true
      · rw [hqb, hpq b hqb]; omega
      · rw [Bool.not_eq_true] at hqb
        rw [hqb]
        rcases Bool.eq_false_or_eq_true (p b) with hpb | hpb <;> rw [hpb] <;> simp <;> omega

lemma membersAhead_decreases (excl : List Int) (step : Int)
    (hstep : step = 1 ∨ step = -1) (cur : Int) (hmem : cur ∈ excl) :
    membersAhead excl step (cur + step) < membersAhead excl step cur := by
  rcases hstep with rfl | rfl
  · simp only [membersAhead, if_pos rfl]
    refine countP_lt_of_mem excl _ _ cur hmem ?_ ?_ ?_
    · simp
    · simp
    · intro x hx
      have hx2 : cur + 1 ≤ x := by simpa using hx
      show decide (cur ≤ x) = true
      simp only [decide_eq_true_eq]
      omega
  · have hne : ¬((-1 : Int) = 1) := by norm_num
    simp only [membersAhead, if_neg hne]
    refine countP_lt_of_mem excl _ _ cur hmem ?_ ?_ ?_
    · simp
    · simp
    · intro x hx
      have hx2 : x + 1 ≤ cur := by simpa using hx
      show decide (x ≤ cur) = true
      simp only [decide_eq_true_eq]
      omega

/-- The `while current_date in weekends_and_holiday_dates` loop of
`find_business_day`, for the two step values the source can compute. -/
def walkLoop (excl : List Int) (step : Int) (hstep : step = 1 ∨ step = -1)
    (cur : Int) : Int :=
  if cur ∈ excl then walkLoop excl step hstep (cur + step) else cur
termination_by membersAhead excl step cur
decreasing_by exact membersAhead_decreases excl step hstep cur (by assumption)

/-- `step = 1 if direction == 'next' else -1`. -/
def stepOf (direction : String) : Int :=
  if direction = "next" then 1 else -1

lemma stepOf_valid (direction : String) : stepOf direction = 1 ∨ stepOf direction = -1 := by
  by_cases h : direction = "next" <;> simp [stepOf, h]

/-- `find_business_day(base_date, weekends_and_holiday_dates, direction)`. -/
def find_business_day (base_date : Int) (weekends_and_holiday_dates : List Int)
    (direction : String) : Int :=
  walkLoop weekends_and_holiday_dates (stepOf direction) (stepOf_valid direction) base_date

lemma walkLoop_not_mem (excl : List Int) (step : Int) (hs : step = 1 ∨ step = -1)
    (cur : Int) (h : cur ∉ excl) : walkLoop excl step hs cur = cur := by
  rw [walkLoop, if_neg h]

lemma walkLoop_step_eq (excl : List Int) {s1 s2 : Int} (h1 : s1 = 1 ∨ s1 = -1)
    (h2 : s2 = 1 ∨ s2 = -1) (cur : Int) (h : s1 = s2) :
    walkLoop excl s1 h1 cur = walkLoop excl s2 h2 cur := by
  subst h; rfl

/-- Walking forward from inside a run of consecutive excluded dates that ends at
`b` lands on `b + 1`. -/
lemma walkLoop_run_next (excl : List Int) (b step : Int) (hs : step = 1 ∨ step = -1)
    (hstep : step = 1) (hafter : (b + 1) ∉ excl) :
    ∀ n : Nat, ∀ cur : Int, (b + 1 - cur).toNat = n → cur ≤ b + 1 →
      (∀ x, cur ≤ x → x ≤ b → x ∈ excl) → walkLoop excl step hs cur = b + 1 := by
  subst hstep
  intro n
  induction n with
  | zero =>
    intro cur hn hle _
    have hcur : cur = b + 1 := by omega
    subst hcur
    exact walkLoop_not_mem excl 1 hs (b + 1) hafter
  | succ n ih =>
    intro cur hn hle hrun
    have hcb : cur ≤ b := by omega
    have hmem : cur ∈ excl := hrun cur le_rfl hcb
    rw [walkLoop, if_pos hmem]
    exact ih (cur + 1) (by omega) (by omega) (fun x h1 h2 => hrun x (by omega) h2)

/-- Walking backward from inside a run of consecutive excluded dates that starts
at `a` lands on `a - 1`. -/
lemma walkLoop_run_prev (excl : List Int) (a step : Int) (hs : step = 1 ∨ step = -1)
    (hstep : step = -1) (hbefore : (a - 1) ∉ excl) :
    ∀ n : Nat, ∀ cur : Int, (cur - (a - 1)).toNat = n → a - 1 ≤ cur →
      (∀ x, a ≤ x → x ≤ cur → x ∈ excl) → walkLoop excl step hs cur = a - 1 := by
  subst hstep
  intro n
  induction n with
  | zero =>
    intro cur hn hle _
    have hcur : cur = a - 1 := by omega
    subst hcur
    exact walkLoop_not_mem excl (-1) hs (a - 1) hbefore
  | succ n ih =>
    intro cur hn hle hrun
    have hac : a ≤ cur := by omega
    have hmem : cur ∈ excl := hrun cur hac le_rfl
    rw [walkLoop, if_pos hmem]
    exact ih (cur + -1) (by omega) (by omega) (fun x h1 h2 => hrun x h1 (by omega))

/-- Postcondition and step count of the walk, by strong induction on the
termination measure. -/
lemma walkLoop_spec (excl : List Int) (step : Int) (hs : step = 1 ∨ step = -1) :
    ∀ N : Nat, ∀ cur : Int, membersAhead excl step cur ≤ N →
      walkLoop excl step hs cur ∉ excl ∧
        ∃ n : Nat, walkLoop excl step hs cur = cur + n * step := by
  intro N
  induction N with
  | zero =>
    intro cur hle
    have hnot : cur ∉ excl := by
      intro hmem
      have hpos : 0 < membersAhead excl step cur := by
        rcases hs with rfl | rfl
        · simp only [membersAhead, if_pos rfl]
          exact List.countP_pos_iff.mpr ⟨cur, hmem, by simp⟩
        · have hne : ¬((-1 : Int) = 1) := by norm_num
          simp only [membersAhead, if_neg hne]
          exact List.countP_pos_iff.mpr ⟨cur, hmem, by simp⟩
      omega
    rw [walkLoop, if_neg hnot]
    exact ⟨hnot, 0, by simp⟩
  | succ N ih =>
    intro cur hle
    by_cases hmem : cur ∈ excl
    · rw [walkLoop, if_pos hmem]
      have hdec := membersAhead_decreases excl step hs cur hmem
      obtain ⟨hnot, n, hn⟩ := ih (cur + step) (by omega)
      refine ⟨hnot, n + 1, ?_⟩
      rw [hn]
      push_cast
      ring
    · rw [walkLoop, if_neg hmem]
      exact ⟨hmem, 0, by simp⟩

/-- C1: for every exclusion set, every date `D` that is a member of the set, and
every finite maximal run `[a, b]` of consecutive excluded dates containing `D`
(maximality: `a - 1` and `b + 1` are not excluded), `find_business_day` with
direction `'next'` returns `b + 1`, the first date strictly after the run, and
with direction `'previous'` it returns `a - 1`, the first date strictly before
the run. -/
theorem find_business_day_on_run (excl : List Int) (D a b : Int)
    (haD : a ≤ D) (hDb : D ≤ b)
    (hrun : ∀ x, a ≤ x → x ≤ b → x ∈ excl)
    (hbefore : (a - 1) ∉ excl) (hafter : (b + 1) ∉ excl) :
    find_business_day D excl "next" = b + 1 ∧
      find_business_day D excl "previous" = a - 1 := by
  constructor
  · exact walkLoop_run_next excl b (stepOf "next") (stepOf_valid "next") rfl hafter
      (b + 1 - D).toNat D rfl (by omega) (fun x h1 h2 => hrun x (by omega) h2)
  · exact walkLoop_run_prev excl a (stepOf "previous") (stepOf_valid "previous") rfl hbefore
      (D - (a - 1)).toNat D rfl (by omega) (fun x h1 h2 => hrun x h1 (by omega))

theorem find_business_day_on_run_witness :
    (3 : Int) ≤ 3 ∧
      find_business_day 3 [3] "next" = 4 ∧ find_business_day 3 [3] "previous" = 2 := by
  have h := find_business_day_on_run [3] 3 3 3 le_rfl le_rfl
    (fun x h1 h2 => by
      have hx : x = 3 := le_antisymm h2 h1
      simp [hx])
    (by decide) (by decide)
  exact ⟨le_rfl, by omega, by omega⟩

/-- C2: a base date that is not a member of the exclusion set is returned
unchanged, for direction `'next'`, `'previous'`, and in fact any direction
string (zero steps taken). -/
theorem find_business_day_id (base : Int) (excl : List Int) (direction : String)
    (h : base ∉ excl) : find_business_day base excl direction = base :=
  walkLoop_not_mem excl (stepOf direction) (stepOf_valid direction) base h

theorem find_business_day_id_witness :
    find_business_day 5 [3] "next" = 5 ∧ find_business_day 5 [3] "previous" = 5 :=
  ⟨find_business_day_id 5 [3] "next" (by decide),
   find_business_day_id 5 [3] "previous" (by decide)⟩

/-- C8: for every base date, finite exclusion list and direction,
`find_business_day` terminates (it is a total function of this development,
defined by well-founded recursion with no step bound) and returns a date
outside the exclusion list, reached from the base date by finitely many
whole-day steps in the chosen direction. -/
theorem find_business_day_terminates (base : Int) (excl : List Int) (direction : String) :
    find_business_day base excl direction ∉ excl ∧
      ∃ n : Nat, find_business_day base excl direction = base + n * stepOf direction :=
  walkLoop_spec excl (stepOf direction) (stepOf_valid direction)
    (membersAhead excl (stepOf direction) base) base le_rfl

/-- C10: `find_business_day` never validates its direction argument: for every
direction string other than `"next"` the step is `-1`, so the walk behaves
exactly as direction `"previous"`, and no error is raised. -/
theorem find_business_day_direction_fallback (base : Int) (excl : List Int)
    (direction : String) (h : direction ≠ "next") :
    find_business_day base excl direction = find_business_day base excl "previous" :=
  walkLoop_step_eq excl (stepOf_valid direction) (stepOf_valid "previous") base
    (by simp [stepOf, h])

theorem find_business_day_direction_fallback_witness :
    find_business_day 7 [7, 8] "nxet" = find_business_day 7 [7, 8] "previous" :=
  find_business_day_direction_fallback 7 [7, 8] "nxet" (by decide)

/-! ## `generate_weekend_dates_list` (the Weekend Generator)

```python
for year in years:
    start_date = datetime(year, 1, 1)
    end_date = datetime(year, 12, 31)
    current_date = start_date
    result_list = []
    while current_date <= end_date:
        if current_date.weekday() in [5, 6]:
            result_list.append(current_date.date())
        current_date += timedelta(days=1)
    weekend_dates_list.extend(result_list)
```
-/

/-- The inner `while current_date <= end_date` loop: the dates in
`[cur, endOrd]` whose weekday is 5 (Saturday) or 6 (Sunday), appended in
ascending order. -/
def weekendLoop (endOrd : Int) (cur : Int) : List Int :=
  if cur ≤ endOrd then
    (if weekday cur = 5 ∨ weekday cur = 6 then [cur] else []) ++ weekendLoop endOrd (cur + 1)
  else []
termination_by (endOrd + 1 - cur).toNat
decreasing_by omega

/-- `generate_weekend_dates_list(years)`: the per-year weekend lists,
concatenated in the order the years appear in the input. -/
def generate_weekend_dates_list (years : List Int) : List Int :=
  years.flatMap (fun year => weekendLoop (ymd2ord year 12 31) (ymd2ord year 1 1))

lemma weekendLoop_mem (endOrd : Int) :
    ∀ n : Nat, ∀ cur : Int, (endOrd + 1 - cur).toNat = n → ∀ o : Int,
      (o ∈ weekendLoop endOrd cur ↔
        cur ≤ o ∧ o ≤ endOrd ∧ (weekday o = 5 ∨ weekday o = 6)) := by
  intro n
  induction n with
  | zero =>
    intro cur hn o
    have hgt : ¬ cur ≤ endOrd := by omega
    rw [weekendLoop, if_neg hgt]
    constructor
    · intro h
      simp at h
    · rintro ⟨h1, h2, _⟩
      exact absurd (le_trans h1 h2) hgt
  | succ n ih =>
    intro cur hn o
    have hle : cur ≤ endOrd := by omega
    rw [weekendLoop, if_pos hle, List.mem_append, ih (cur + 1) (by omega) o]
    constructor
    · rintro (hin | ⟨h1, h2, hw⟩)
      · by_cases hwc : weekday cur = 5 ∨ weekday cur = 6
        · rw [if_pos hwc] at hin
          simp at hin
          subst hin
          exact ⟨le_rfl, hle, hwc⟩
        · rw [if_neg hwc] at hin
          simp at hin
      · exact ⟨by omega, h2, hw⟩
    · rintro ⟨h1, h2, hw⟩
      by_cases heq : o = cur
      · subst heq
        left
        rw [if_pos hw]
        simp
      · right
        exact ⟨by omega, h2, hw⟩

lemma weekendLoop_sorted (endOrd : Int) :
    ∀ n : Nat, ∀ cur : Int, (endOrd + 1 - cur).toNat = n →
      (weekendLoop endOrd cur).Pairwise (· < ·) := by
  intro n
  induction n with
  | zero =>
    intro cur hn
    have hgt : ¬ cur ≤ endOrd := by omega
    rw [weekendLoop, if_neg hgt]
    exact List.Pairwise.nil
  | succ n ih =>
    intro cur hn
    have hle : cur ≤ endOrd := by omega
    rw [weekendLoop, if_pos hle, List.pairwise_append]
    refine ⟨?_, ih (cur + 1) (by omega), ?_⟩
    · by_cases hwc : weekday cur = 5 ∨ weekday cur = 6
      · rw [if_pos hwc]
        simp
      · rw [if_neg hwc]
        simp
    · intro a ha b hb
      have hb2 := (weekendLoop_mem endOrd ((endOrd + 1 - (cur + 1)).toNat) (cur + 1) rfl b).mp hb
      by_cases hwc : weekday cur = 5 ∨ weekday cur = 6
      · rw [if_pos hwc] at ha
        simp at ha
        subst ha
        omega
      · rw [if_neg hwc] at ha
        simp at ha

lemma weekendLoop_count (endOrd cur o : Int) :
    (weekendLoop endOrd cur).count o =
      if cur ≤ o ∧ o ≤ endOrd ∧ (weekday o = 5 ∨ weekday o = 6) then 1 else 0 := by
  have hmem := weekendLoop_mem endOrd ((endOrd + 1 - cur).toNat) cur rfl o
  have hnd : (weekendLoop endOrd cur).Nodup :=
    (weekendLoop_sorted endOrd ((endOrd + 1 - cur).toNat) cur rfl).imp ne_of_lt
  by_cases h : cur ≤ o ∧ o ≤ endOrd ∧ (weekday o = 5 ∨ weekday o = 6)
  · rw [if_pos h]
    exact List.count_eq_one_of_mem hnd (hmem.mpr h)
  · rw [if_neg h]
    exact List.count_eq_zero.mpr (fun hin => h (hmem.mp hin))

/-- C3: every date returned by `generate_weekend_dates_list` has weekday
Saturday (5) or Sunday (6); the output is the concatenation, in input-year
order, of per-year lists; and each per-year list is strictly ascending and
contains each Saturday/Sunday between January 1 and December 31 of that year
exactly once (count 1) and nothing else (count 0). -/
theorem generate_weekend_dates_list_spec (years : List Int) :
    (∀ o ∈ generate_weekend_dates_list years, weekday o = 5 ∨ weekday o = 6) ∧
    generate_weekend_dates_list years =
      years.flatMap (fun year => weekendLoop (ymd2ord year 12 31) (ymd2ord year 1 1)) ∧
    (∀ year : Int, (weekendLoop (ymd2ord year 12 31) (ymd2ord year 1 1)).Pairwise (· < ·)) ∧
    (∀ year o : Int, (weekendLoop (ymd2ord year 12 31) (ymd2ord year 1 1)).count o =
      if ymd2ord year 1 1 ≤ o ∧ o ≤ ymd2ord year 12 31 ∧ (weekday o = 5 ∨ weekday o = 6)
      then 1 else 0) := by
  refine ⟨?_, rfl, ?_, ?_⟩
  · intro o ho
    rw [generate_weekend_dates_list, List.mem_flatMap] at ho
    obtain ⟨year, _, hin⟩ := ho
    exact ((weekendLoop_mem (ymd2ord year 12 31)
      ((ymd2ord year 12 31 + 1 - ymd2ord year 1 1).toNat) (ymd2ord year 1 1) rfl o).mp hin).2.2
  · intro year
    exact weekendLoop_sorted (ymd2ord year 12 31)
      ((ymd2ord year 12 31 + 1 - ymd2ord year 1 1).toNat) (ymd2ord year 1 1) rfl
  · intro year o
    exact weekendLoop_count (ymd2ord year 12 31) (ymd2ord year 1 1) o

/-! ## `combine_subdivision_holidays` (the Holiday Aggregator)

```python
combined_holidays = []
for location_id, location_info in locations_dict.items():
    country = location_info['country']
    subdivision = location_info['subdivision']
    subdivision_holidays = holidays.country_holidays(country=country, subdiv=subdivision, years=years)
    dates_only_list = [date for date in subdivision_holidays.keys()]
    combined_holidays.extend(date for date in dates_only_list if date not in combined_holidays)
return combined_holidays
```

`locations_dict` is an association list of `(location_id, location_info)`
pairs; each `location_info` is an association list of string attributes, and
the `location_info['country']` / `location_info['subdivision']` subscripts
raise `KeyError` when the key is absent. The external `holidays` library is the
`provider` parameter. -/

/-- Python `record[key]`: the value stored under `key`, `none` for `KeyError`. -/
def lookupKey (record : List (String × String)) (key : String) : Option String :=
  List.lookup key record

/-- `combined.extend(d for d in dates if d not in combined)`. The generator is
consumed while `extend` appends, so each yielded date is tested against the
list as built so far (duplicates inside `dates` are also skipped). -/
def addUnique (combined : List Int) : List Int → List Int
  | [] => combined
  | d :: dates => addUnique (if d ∈ combined then combined else combined ++ [d]) dates

/-- The `for location_id, location_info in locations_dict.items()` loop,
carrying the `combined_holidays` accumulator. -/
def combineLoop (provider : String → String → List Int → List Int) (years : List Int) :
    List (String × List (String × String)) → List Int → Except String (List Int)
  | [], combined => .ok combined
  | (_, info) :: rest, combined =>
    match lookupKey info "country" with
    | none => .error "KeyError: 'country'"
    | some country =>
      match lookupKey info "subdivision" with
      | none => .error "KeyError: 'subdivision'"
      | some subdivision =>
        combineLoop provider years rest (addUnique combined (provider country subdivision years))

/-- `combine_subdivision_holidays(locations_dict, years)`, with the external
holiday-data provider passed explicitly. -/
def combine_subdivision_holidays (provider : String → String → List Int → List Int)
    (locations_dict : List (String × List (String × String))) (years : List Int) :
    Except String (List Int) :=
  combineLoop provider years locations_dict []

/-- The concatenation of the per-jurisdiction provider results, in jurisdiction
order (the raw stream the aggregator de-duplicates). -/
def providerOutputs (provider : String → String → List Int → List Int)
    (locations_dict : List (String × List (String × String))) (years : List Int) : List Int :=
  locations_dict.flatMap (fun loc =>
    match lookupKey loc.2 "country", lookupKey loc.2 "subdivision" with
    | some country, some subdivision => provider country subdivision years
    | _, _ => [])

/-- Modelled from the spec sentence "skipping any date already present (order
of first appearance preserved)": keep the first occurrence of each date, drop
the rest. -/
def firstOccurrences : List Int → List Int
  | [] => []
  | d :: ds => d :: firstOccurrences (ds.filter (fun x => decide (x ≠ d)))
termination_by l => l.length
decreasing_by
  simp only [List.length_cons]
  exact Nat.lt_succ_of_le (List.length_filter_le _ _)

lemma addUnique_append (xs ys : List Int) :
    ∀ combined : List Int, addUnique combined (xs ++ ys) = addUnique (addUnique combined xs) ys := by
  induction xs with
  | nil => intro c; rfl
  | cons d xs ih =>
    intro c
    rw [List.cons_append, addUnique, addUnique]
    exact ih _

lemma addUnique_nodup (dates : List Int) :
    ∀ combined : List Int, combined.Nodup → (addUnique combined dates).Nodup := by
  induction dates with
  | nil => intro combined h; exact h
  | cons d dates ih =>
    intro combined h
    rw [addUnique]
    by_cases hd : d ∈ combined
    · rw [if_pos hd]; exact ih combined h
    · rw [if_neg hd]
      refine ih (combined ++ [d]) ?_
      rw [List.nodup_append]
      refine ⟨h, List.nodup_singleton d, ?_⟩
      intro a ha hb
      rw [List.mem_singleton] at hb
      subst hb
      exact hd ha

lemma addUnique_eq_firstOccurrences (dates : List Int) :
    ∀ combined : List Int,
      addUnique combined dates =
        combined ++ firstOccurrences (dates.filter (fun x => decide (x ∉ combined))) := by
  induction dates with
  | nil =>
    intro combined
    rw [List.filter_nil, firstOccurrences.eq_1, List.append_nil]
    rfl
  | cons d dates ih =>
    intro combined
    rw [addUnique, List.filter_cons]
    by_cases hd : d ∈ combined
    · rw [if_pos hd]
      have : (decide (d ∉ combined)) = false := by simp [hd]
      rw [this, if_neg (by simp)]
      exact ih combined
    · rw [if_neg hd]
      have : (decide (d ∉ combined)) = true := by simp [hd]
      rw [this, if_pos rfl, firstOccurrences.eq_2]
      rw [ih (combined ++ [d])]
      rw [List.filter_filter]
      have hfil : (dates.filter (fun x => decide (x ∉ combined ++ [d]))) =
          (dates.filter (fun a => decide (a ≠ d) && decide (a ∉ combined))) := by
        apply List.filter_congr
        intro x _
        by_cases h1 : x = d <;> by_cases h2 : x ∈ combined <;> simp [h1, h2]
      rw [hfil]
      simp [List.append_assoc]

/-- C7: whenever `combine_subdivision_holidays` returns a list, that list has
no duplicate dates — even when two jurisdictions share a holiday — and it is
exactly the per-jurisdiction provider results concatenated in jurisdiction
order and collapsed to first occurrences (order of first appearance). -/
theorem combine_subdivision_holidays_spec
    (provider : String → String → List Int → List Int)
    (locations_dict : List (String × List (String × String))) (years : List Int)
    (l : List Int)
    (h : combine_subdivision_holidays provider locations_dict years = .ok l) :
    l.Nodup ∧ l = firstOccurrences (providerOutputs provider locations_dict years) := by
  have key : ∀ locs : List (String × List (String × String)), ∀ combined res : List Int,
      combineLoop provider years locs combined = .ok res →
      res = addUnique combined (providerOutputs provider locs years) := by
    intro locs
    induction locs with
    | nil =>
      intro combined res hres
      rw [combineLoop] at hres
      injection hres with hres
      simp [providerOutputs, addUnique, hres]
    | cons loc rest ih =>
      intro combined res hres
      obtain ⟨lid, info⟩ := loc
      rw [combineLoop] at hres
      cases hc : lookupKey info "country" with
      | none => rw [hc] at hres; cases hres
      | some country =>
        rw [hc] at hres
        cases hs : lookupKey info "subdivision" with
        | none => rw [hs] at hres; cases hres
        | some subdivision =>
          rw [hs] at hres
          have := ih (addUnique combined (provider country subdivision years)) res hres
          rw [this]
          have houts : providerOutputs provider ((lid, info) :: rest) years =
              provider country subdivision years ++ providerOutputs provider rest years := by
            simp only [providerOutputs, List.flatMap_cons, hc, hs]
          rw [houts, addUnique_append]
  have hl := key locations_dict [] l h
  constructor
  · rw [hl]
    exact addUnique_nodup _ [] List.nodup_nil
  · rw [hl, addUnique_eq_firstOccurrences]
    simp

theorem combine_subdivision_holidays_spec_witness :
    ([10, 11, 12] : List Int).Nodup ∧
      ([10, 11, 12] : List Int) = firstOccurrences (providerOutputs
        (fun _ s _ => if s = "CA" then [10, 11] else [11, 12])
        [("a", [("country", "US"), ("subdivision", "CA")]),
         ("b", [("country", "US"), ("subdivision", "NY")])] [2024]) :=
  combine_subdivision_holidays_spec
    (fun _ s _ => if s = "CA" then [10, 11] else [11, 12])
    [("a", [("country", "US"), ("subdivision", "CA")]),
     ("b", [("country", "US"), ("subdivision", "NY")])] [2024] [10, 11, 12] (by rfl)

/-- C9 counterexample: a jurisdiction record with the `subdivision` key omitted
makes `combine_subdivision_holidays` itself fail (the `location_info['subdivision']`
subscript raises `KeyError`); the provider is never consulted for it. -/
theorem combine_subdivision_holidays_missing_key_cex :
    combine_subdivision_holidays (fun _ _ _ => []) [("AU", [("country", "AU")])] [2024] =
      .error "KeyError: 'subdivision'" := rfl

/-- C9 amended: `combine_subdivision_holidays` requires the `subdivision` key to
be present in each jurisdiction record; whatever string value it holds (empty
included) is passed through unchanged to the holiday-data provider, while a
record with the key omitted makes the call fail with a `KeyError`. -/
theorem combine_subdivision_holidays_subdivision_passthrough
    (provider : String → String → List Int → List Int)
    (lid : String) (info : List (String × String)) (years : List Int)
    (country : String) (hc : lookupKey info "country" = some country) :
    (∀ subdivision, lookupKey info "subdivision" = some subdivision →
      combine_subdivision_holidays provider [(lid, info)] years =
        .ok (addUnique [] (provider country subdivision years))) ∧
    (lookupKey info "subdivision" = none →
      combine_subdivision_holidays provider [(lid, info)] years =
        .error "KeyError: 'subdivision'") := by
  constructor
  · intro subdivision hs
    simp only [combine_subdivision_holidays, combineLoop, hc, hs]
  · intro hs
    simp only [combine_subdivision_holidays, combineLoop, hc, hs]

theorem combine_subdivision_holidays_subdivision_passthrough_witness :
    combine_subdivision_holidays (fun _ _ _ => [3])
      [("j", [("country", "US"), ("subdivision", "CA")])] [2024] = .ok [3] :=
  (combine_subdivision_holidays_subdivision_passthrough (fun _ _ _ => [3]) "j"
    [("country", "US"), ("subdivision", "CA")] [2024] "US" (by rfl)).1 "CA" (by rfl)

/-! ## `weekend_and_holiday_dates` (the Exclusion Set Builder)

```python
weekends_list = generate_weekend_dates_list(years)
holidays_list = combine_subdivision_holidays(locations_dict=locations_dict, years=years)
weekends_and_holidays = list(set(weekends_list + holidays_list))
return weekends_and_holidays
```

Python's `list(set(..))` returns the unique elements in an unspecified order;
`List.dedup` is the determinization used here — the claims about the result
(membership and freedom from duplicates) are exactly the properties that do not
depend on that order. A `KeyError` from the aggregator propagates. -/

/-- `weekend_and_holiday_dates(locations_dict, years)`. -/
def weekend_and_holiday_dates (provider : String → String → List Int → List Int)
    (locations_dict : List (String × List (String × String))) (years : List Int) :
    Except String (List Int) :=
  match combine_subdivision_holidays provider locations_dict years with
  | .error e => .error e
  | .ok holidays_list => .ok ((generate_weekend_dates_list years ++ holidays_list).dedup)

/-- C4: the Exclusion Set never contains two entries for the same calendar
date, and a date is a member exactly when it is in the Weekend Generator's
output or in the Holiday Aggregator's output for the same inputs. -/
theorem weekend_and_holiday_dates_spec
    (provider : String → String → List Int → List Int)
    (locations_dict : List (String × List (String × String))) (years : List Int)
    (hl l : List Int) (o : Int)
    (hcomb : combine_subdivision_holidays provider locations_dict years = .ok hl)
    (h : weekend_and_holiday_dates provider locations_dict years = .ok l) :
    l.Nodup ∧ (o ∈ l ↔ o ∈ generate_weekend_dates_list years ∨ o ∈ hl) := by
  have h2 : Except.ok ((generate_weekend_dates_list years ++ hl).dedup) =
      (.ok l : Except String (List Int)) := by
    rw [← h]
    unfold weekend_and_holiday_dates
    rw [hcomb]
  injection h2 with h2
  subst h2
  exact ⟨List.nodup_dedup _, by rw [List.mem_dedup, List.mem_append]⟩

theorem weekend_and_holiday_dates_spec_witness :
    ([5] : List Int).Nodup ∧
      ((5 : Int) ∈ ([5] : List Int) ↔
        5 ∈ generate_weekend_dates_list [] ∨ (5 : Int) ∈ ([5] : List Int)) :=
  weekend_and_holiday_dates_spec (fun _ _ _ => [5])
    [("j", [("country", "US"), ("subdivision", "CA")])] [] [5] [5] 5 (by rfl) (by rfl)

/-! ## `convert_to_date` (the Date Parser)

```python
try:
    parsed_date = datetime.strptime(date_str, '%Y-%m-%d').date()
    return parsed_date
except ValueError as e:
    raise ValueError(f"Invalid date format. Expected 'yyyy-mm-dd'. Error: {e}")
```

CPython's `strptime` compiles the format `'%Y-%m-%d'` into the regular
expression `(?P<Y>\d\d\d\d)\-(?P<m>1[0-2]|0[1-9]|[1-9])\-(?P<d>3[01]|[12]\d|0[1-9]|[1-9])`,
matches it at the start of the input (raising `ValueError` when it does not
match or when characters remain after the match), and then builds the
`datetime`, whose constructor re-validates the fields (raising `ValueError`
for a year outside 1..9999, or a day beyond the month's length).

The field parsers below embed those three regular-expression groups. Each
commits to a two-character alternative whenever one matches; this is faithful
because the regex alternatives are ordered longest-first and a shorter
alternative consumes strictly less, so whenever the engine's first match
leaves characters over (an error), every later alternative leaves more. -/

/-- The numeric value of a digit character. -/
def digitVal (c : Char) : Int :=
  (c.toNat : Int) - 48

/-- The `%Y` group `\d\d\d\d`: exactly four digits. -/
def parseYear : List Char → Option (Int × List Char)
  | a :: b :: c :: d :: rest =>
    if a.isDigit ∧ b.isDigit ∧ c.isDigit ∧ d.isDigit then
      some (1000 * digitVal a + 100 * digitVal b + 10 * digitVal c + digitVal d, rest)
    else none
  | _ => none

/-- The `%m` group `1[0-2]|0[1-9]|[1-9]`. -/
def parseMonth : List Char → Option (Int × List Char)
  | '1' :: c :: rest =>
    if '0' ≤ c ∧ c ≤ '2' then some (10 + digitVal c, rest) else some (1, c :: rest)
  | '0' :: c :: rest =>
    if '1' ≤ c ∧ c ≤ '9' then some (digitVal c, rest) else none
  | c :: rest => if '1' ≤ c ∧ c ≤ '9' then some (digitVal c, rest) else none
  | [] => none

/-- The `%d` group `3[01]|[12]\d|0[1-9]|[1-9]`. -/
def parseDay : List Char → Option (Int × List Char)
  | '3' :: c :: rest =>
    if c = '0' ∨ c = '1' then some (30 + digitVal c, rest) else some (3, c :: rest)
  | '0' :: c :: rest =>
    if '1' ≤ c ∧ c ≤ '9' then some (digitVal c, rest) else none
  | c :: c2 :: rest =>
    if ('1' ≤ c ∧ c ≤ '2') ∧ c2.isDigit then some (10 * digitVal c + digitVal c2, rest)
    else if '1' ≤ c ∧ c ≤ '9' then some (digitVal c, c2 :: rest) else none
  | [c] => if '1' ≤ c ∧ c ≤ '9' then some (digitVal c, []) else none
  | [] => none

/-- `datetime.strptime(date_str, '%Y-%m-%d')`, fields only: the year group,
a literal hyphen, the month group, a literal hyphen, the day group, and
nothing after (`none` for `ValueError`, from a non-match or from unconverted
trailing data). -/
def strptimeYMD (s : String) : Option (Int × Int × Int) :=
  match parseYear s.data with
  | some (y, '-' :: r1) =>
    match parseMonth r1 with
    | some (m, '-' :: r2) =>
      match parseDay r2 with
      | some (d, []) => some (y, m, d)
      | _ => none
    | _ => none
  | _ => none

/-- The `datetime(year, month, day)` constructor's field validation: `some`
holds the `ValueError` message it raises, `none` means the date is valid.
Checked in CPython's order: year, then month, then day. -/
def dateCtorDetail (y m d : Int) : Option String :=
  if y < 1 ∨ 9999 < y then some ("year " ++ toString y ++ " is out of range")
  else if m < 1 ∨ 12 < m then some "month must be in 1..12"
  else if d < 1 ∨ daysInMonth y m < d then some "day is out of range for month"
  else none

/-- `convert_to_date(date_str)`: the parsed date's ordinal, or the wrapped
`ValueError` message. -/
def convert_to_date (date_str : String) : Except String Int :=
  match strptimeYMD date_str with
  | none => .error ("Invalid date format. Expected 'yyyy-mm-dd'. Error: time data '"
      ++ date_str ++ "' does not match format '%Y-%m-%d'")
  | some (y, m, d) =>
    match dateCtorDetail y m d with
    | some detail => .error ("Invalid date format. Expected 'yyyy-mm-dd'. Error: " ++ detail)
    | none => .ok (ymd2ord y m d)

/-- The zero-padded rendering `YYYY-MM-DD` of a date, the literal pattern the
spec documents as the input format. -/
def padISO (y m d : Int) : String :=
  ⟨[Nat.digitChar (y.toNat / 1000 % 10), Nat.digitChar (y.toNat / 100 % 10),
    Nat.digitChar (y.toNat / 10 % 10), Nat.digitChar (y.toNat % 10), '-',
    Nat.digitChar (m.toNat / 10), Nat.digitChar (m.toNat % 10), '-',
    Nat.digitChar (d.toNat / 10), Nat.digitChar (d.toNat % 10)]⟩

lemma isDigit_of_between (c lo : Char) (hlo : '0' ≤ lo) (h1 : lo ≤ c) (h2 : c ≤ '9') :
    c.isDigit = true := by
  unfold Char.isDigit
  have h0 : '0' ≤ c := le_trans hlo h1
  simp only [Bool.and_eq_true, decide_eq_true_eq]
  exact ⟨h0, h2⟩

lemma digitChar_isDigit : ∀ k : Nat, k < 10 → (Nat.digitChar k).isDigit = true := by decide

lemma digitVal_digitChar : ∀ k : Nat, k < 10 → digitVal (Nat.digitChar k) = (k : Int) := by
  decide

lemma digitChar_one_nine : ∀ k : Nat, k < 10 → 1 ≤ k →
    ('1' ≤ Nat.digitChar k ∧ Nat.digitChar k ≤ '9') := by decide

lemma digitChar_zero_two : ∀ k : Nat, k < 3 →
    ('0' ≤ Nat.digitChar k ∧ Nat.digitChar k ≤ '2') := by decide

lemma parseYear_padded (yn : Nat) (h : yn ≤ 9999) (rest : List Char) :
    parseYear (Nat.digitChar (yn / 1000 % 10) :: Nat.digitChar (yn / 100 % 10) ::
      Nat.digitChar (yn / 10 % 10) :: Nat.digitChar (yn % 10) :: rest) =
      some ((yn : Int), rest) := by
  have d1 : yn / 1000 % 10 < 10 := Nat.mod_lt _ (by norm_num)
  have d2 : yn / 100 % 10 < 10 := Nat.mod_lt _ (by norm_num)
  have d3 : yn / 10 % 10 < 10 := Nat.mod_lt _ (by norm_num)
  have d4 : yn % 10 < 10 := Nat.mod_lt _ (by norm_num)
  rw [parseYear]
  rw [if_pos ⟨digitChar_isDigit _ d1, digitChar_isDigit _ d2,
    digitChar_isDigit _ d3, digitChar_isDigit _ d4⟩]
  rw [digitVal_digitChar _ d1, digitVal_digitChar _ d2,
    digitVal_digitChar _ d3, digitVal_digitChar _ d4]
  congr 1
  rw [Prod.mk.injEq]
  refine ⟨?_, rfl⟩
  omega

lemma parseMonth_padded (mn : Nat) (h1 : 1 ≤ mn) (h2 : mn ≤ 12) (rest : List Char) :
    parseMonth (Nat.digitChar (mn / 10) :: Nat.digitChar (mn % 10) :: rest) =
      some ((mn : Int), rest) := by
  interval_cases mn <;> rfl

lemma parseDay_padded (dn : Nat) (h1 : 1 ≤ dn) (h2 : dn ≤ 31) (rest : List Char) :
    parseDay (Nat.digitChar (dn / 10) :: Nat.digitChar (dn % 10) :: rest) =
      some ((dn : Int), rest) := by
  interval_cases dn <;> rfl

lemma strptimeYMD_padISO (y m d : Int) (hy1 : 1 ≤ y) (hy2 : y ≤ 9999)
    (hm1 : 1 ≤ m) (hm2 : m ≤ 12) (hd1 : 1 ≤ d) (hd2 : d ≤ 31) :
    strptimeYMD (padISO y m d) = some (y, m, d) := by
  have hy : ((y.toNat : Nat) : Int) = y := Int.toNat_of_nonneg (by omega)
  have hm : ((m.toNat : Nat) : Int) = m := Int.toNat_of_nonneg (by omega)
  have hd : ((d.toNat : Nat) : Int) = d := Int.toNat_of_nonneg (by omega)
  have hyear := parseYear_padded y.toNat (by omega)
    ('-' :: Nat.digitChar (m.toNat / 10) :: Nat.digitChar (m.toNat % 10) :: '-' ::
      Nat.digitChar (d.toNat / 10) :: Nat.digitChar (d.toNat % 10) :: [])
  have hmonth := parseMonth_padded m.toNat (by omega) (by omega)
    ('-' :: Nat.digitChar (d.toNat / 10) :: Nat.digitChar (d.toNat % 10) :: [])
  have hday := parseDay_padded d.toNat (by omega) (by omega) ([] : List Char)
  rw [hy] at hyear
  rw [hm] at hmonth
  rw [hd] at hday
  unfold strptimeYMD
  rw [show (padISO y m d).data = Nat.digitChar (y.toNat / 1000 % 10) ::
    Nat.digitChar (y.toNat / 100 % 10) :: Nat.digitChar (y.toNat / 10 % 10) ::
    Nat.digitChar (y.toNat % 10) :: '-' :: Nat.digitChar (m.toNat / 10) ::
    Nat.digitChar (m.toNat % 10) :: '-' :: Nat.digitChar (d.toNat / 10) ::
    Nat.digitChar (d.toNat % 10) :: [] from rfl]
  rw [hyear]
  simp only [hmonth, hday]

lemma convert_to_date_padISO (y m d : Int) (hy1 : 1 ≤ y) (hy2 : y ≤ 9999)
    (hm1 : 1 ≤ m) (hm2 : m ≤ 12) (hd1 : 1 ≤ d) (hd2 : d ≤ daysInMonth y m) :
    convert_to_date (padISO y m d) = .ok (ymd2ord y m d) := by
  have hdm : daysInMonth y m ≤ 31 := by
    unfold daysInMonth
    split
    · split <;> omega
    · split <;> omega
  have hs := strptimeYMD_padISO y m d hy1 hy2 hm1 hm2 hd1 (by omega)
  have hctor : dateCtorDetail y m d = none := by
    unfold dateCtorDetail
    rw [if_neg (by omega), if_neg (by omega), if_neg (by omega)]
  unfold convert_to_date
  rw [hs]
  simp only [hctor]

lemma parseYear_shape (cs : List Char) (y : Int) (rest : List Char)
    (h : parseYear cs = some (y, rest)) :
    ∃ a b c d, cs = a :: b :: c :: d :: rest ∧
      a.isDigit ∧ b.isDigit ∧ c.isDigit ∧ d.isDigit := by
  unfold parseYear at h
  split at h
  · rename_i a b c d rest0
    split_ifs at h with hd
    simp only [Option.some.injEq, Prod.mk.injEq] at h
    obtain ⟨-, hrest⟩ := h
    subst hrest
    exact ⟨a, b, c, d, rfl, hd.1, hd.2.1, hd.2.2.1, hd.2.2.2⟩
  · cases h

lemma parseMonth_shape (cs : List Char) (m : Int) (rest : List Char)
    (h : parseMonth cs = some (m, rest)) :
    (∃ c1, cs = c1 :: rest ∧ c1.isDigit) ∨
      (∃ c1 c2, cs = c1 :: c2 :: rest ∧ c1.isDigit ∧ c2.isDigit) := by
  unfold parseMonth at h
  split at h
  · rename_i c rest0
    split_ifs at h with hc
    · simp only [Option.some.injEq, Prod.mk.injEq] at h
      obtain ⟨-, hrest⟩ := h
      subst hrest
      exact Or.inr ⟨'1', c, rfl, by decide,
        isDigit_of_between c '0' le_rfl hc.1 (le_trans hc.2 (by decide))⟩
    · simp only [Option.some.injEq, Prod.mk.injEq] at h
      obtain ⟨-, hrest⟩ := h
      subst hrest
      exact Or.inl ⟨'1', rfl, by decide⟩
  · rename_i c rest0
    split_ifs at h with hc
    · simp only [Option.some.injEq, Prod.mk.injEq] at h
      obtain ⟨-, hrest⟩ := h
      subst hrest
      exact Or.inr ⟨'0', c, rfl, by decide,
        isDigit_of_between c '1' (by decide) hc.1 hc.2⟩
  · rename_i c rest0 hne1 hne2
    split_ifs at h with hc
    · simp only [Option.some.injEq, Prod.mk.injEq] at h
      obtain ⟨-, hrest⟩ := h
      subst hrest
      exact Or.inl ⟨c, rfl, isDigit_of_between c '1' (by decide) hc.1 hc.2⟩
  · cases h

lemma parseDay_shape (cs : List Char) (d : Int) (rest : List Char)
    (h : parseDay cs = some (d, rest)) :
    (∃ c1, cs = c1 :: rest ∧ c1.isDigit) ∨
      (∃ c1 c2, cs = c1 :: c2 :: rest ∧ c1.isDigit ∧ c2.isDigit) := by
  unfold parseDay at h
  split at h
  · rename_i c rest0
    split_ifs at h with hc
    · simp only [Option.some.injEq, Prod.mk.injEq] at h
      obtain ⟨-, hrest⟩ := h
      subst hrest
      refine Or.inr ⟨'3', c, rfl, by decide, ?_⟩
      rcases hc with rfl | rfl <;> decide
    · simp only [Option.some.injEq, Prod.mk.injEq] at h
      obtain ⟨-, hrest⟩ := h
      subst hrest
      exact Or.inl ⟨'3', rfl, by decide⟩
  · rename_i c rest0
    split_ifs at h with hc
    · simp only [Option.some.injEq, Prod.mk.injEq] at h
      obtain ⟨-, hrest⟩ := h
      subst hrest
      exact Or.inr ⟨'0', c, rfl, by decide,
        isDigit_of_between c '1' (by decide) hc.1 hc.2⟩
  · rename_i c c2 rest0 hne1 hne2
    split_ifs at h with hc hc2
    · simp only [Option.some.injEq, Prod.mk.injEq] at h
      obtain ⟨-, hrest⟩ := h
      subst hrest
      exact Or.inr ⟨c, c2, rfl,
        isDigit_of_between c '1' (by decide) hc.1.1 (le_trans hc.1.2 (by decide)), hc.2⟩
    · simp only [Option.some.injEq, Prod.mk.injEq] at h
      obtain ⟨-, hrest⟩ := h
      subst hrest
      exact Or.inl ⟨c, rfl, isDigit_of_between c '1' (by decide) hc2.1 hc2.2⟩
  · rename_i c
    split_ifs at h with hc
    · simp only [Option.some.injEq, Prod.mk.injEq] at h
      obtain ⟨-, hrest⟩ := h
      subst hrest
      exact Or.inl ⟨c, rfl, isDigit_of_between c '1' (by decide) hc.1 hc.2⟩
  · cases h

/-- Anything `strptimeYMD` accepts has the shape: four digits, a hyphen, one or
two digits, a hyphen, one or two digits, and nothing after. -/
lemma strptimeYMD_shape (s : String) (y m d : Int) (h : strptimeYMD s = some (y, m, d)) :
    ∃ (a b c dd : Char) (mcs dcs : List Char),
      s.data = a :: b :: c :: dd :: '-' :: (mcs ++ '-' :: dcs) ∧
      (a.isDigit ∧ b.isDigit ∧ c.isDigit ∧ dd.isDigit) ∧
      (1 ≤ mcs.length ∧ mcs.length ≤ 2) ∧ (∀ ch ∈ mcs, ch.isDigit) ∧
      (1 ≤ dcs.length ∧ dcs.length ≤ 2) ∧ (∀ ch ∈ dcs, ch.isDigit) := by
  unfold strptimeYMD at h
  split at h
  · rename_i y1 r1 hyeq
    split at h
    · rename_i m1 r2 hmeq
      split at h
      · rename_i d1 hdeq
        obtain ⟨a, b, c, dd, hsd, ha, hb, hc2, hd2⟩ := parseYear_shape _ _ _ hyeq
        have hmonth := parseMonth_shape _ _ _ hmeq
        have hday := parseDay_shape _ _ _ hdeq
        rcases hmonth with ⟨c1, hr1, hc1⟩ | ⟨c1, c2, hr1, hc1, hc2m⟩ <;>
          rcases hday with ⟨e1, hr2, he1⟩ | ⟨e1, e2, hr2, he1, he2⟩
        · exact ⟨a, b, c, dd, [c1], [e1], by rw [hsd, hr1, hr2]; rfl,
            ⟨ha, hb, hc2, hd2⟩, ⟨by simp, by simp⟩, by simp [hc1], ⟨by simp, by simp⟩,
            by simp [he1]⟩
        · exact ⟨a, b, c, dd, [c1], [e1, e2], by rw [hsd, hr1, hr2]; rfl,
            ⟨ha, hb, hc2, hd2⟩, ⟨by simp, by simp⟩, by simp [hc1], ⟨by simp, by simp⟩,
            by simp [he1, he2]⟩
        · exact ⟨a, b, c, dd, [c1, c2], [e1], by rw [hsd, hr1, hr2]; rfl,
            ⟨ha, hb, hc2, hd2⟩, ⟨by simp, by simp⟩, by simp [hc1, hc2m], ⟨by simp, by simp⟩,
            by simp [he1]⟩
        · exact ⟨a, b, c, dd, [c1, c2], [e1, e2], by rw [hsd, hr1, hr2]; rfl,
            ⟨ha, hb, hc2, hd2⟩, ⟨by simp, by simp⟩, by simp [hc1, hc2m], ⟨by simp, by simp⟩,
            by simp [he1, he2]⟩
      · cases h
    · cases h
  · cases h

/-- C5 counterexample: the input `"2024-1-1"`, whose month and day are not
zero-padded, is accepted by `convert_to_date` (it returns January 1, 2024),
where the claim says every such alternate format fails. -/
theorem convert_to_date_unpadded_ok_cex :
    convert_to_date "2024-1-1" = .ok (ymd2ord 2024 1 1) := by rfl

/-- C5 amended: `convert_to_date` accepts the documented zero-padded
`YYYY-MM-DD` pattern (returning the denoted date), but the month and day may
equally be a single digit; every accepted string consists of exactly four
digits, a hyphen, one or two digits, a hyphen and one or two digits, with
nothing before or after, so other separators, two-digit years, surrounding
whitespace or trailing text still fail. -/
theorem convert_to_date_format_spec :
    (∀ y m d : Int, 1 ≤ y → y ≤ 9999 → 1 ≤ m → m ≤ 12 → 1 ≤ d → d ≤ daysInMonth y m →
      convert_to_date (padISO y m d) = .ok (ymd2ord y m d)) ∧
    convert_to_date "2024-1-1" = .ok (ymd2ord 2024 1 1) ∧
    (∀ (s : String) (o : Int), convert_to_date s = .ok o →
      ∃ (a b c dd : Char) (mcs dcs : List Char),
        s.data = a :: b :: c :: dd :: '-' :: (mcs ++ '-' :: dcs) ∧
        (a.isDigit ∧ b.isDigit ∧ c.isDigit ∧ dd.isDigit) ∧
        (1 ≤ mcs.length ∧ mcs.length ≤ 2) ∧ (∀ ch ∈ mcs, ch.isDigit) ∧
        (1 ≤ dcs.length ∧ dcs.length ≤ 2) ∧ (∀ ch ∈ dcs, ch.isDigit)) ∧
    (convert_to_date "2024/01/01").isOk = false ∧
    (convert_to_date "24-02-09").isOk = false ∧
    (convert_to_date " 2024-02-09").isOk = false ∧
    (convert_to_date "2024-02-09 ").isOk = false := by
  refine ⟨convert_to_date_padISO, by rfl, ?_, by rfl, by rfl, by rfl, by rfl⟩
  intro s o h
  unfold convert_to_date at h
  split at h
  · cases h
  · rename_i y m d heq
    exact strptimeYMD_shape s y m d heq

theorem convert_to_date_format_spec_witness :
    convert_to_date (padISO 2024 2 29) = .ok (ymd2ord 2024 2 29) :=
  convert_to_date_format_spec.1 2024 2 29 (by decide) (by decide) (by decide) (by decide)
    (by decide) (by decide)

/-- C6: a string that parses against the format but denotes an impossible
calendar date makes `convert_to_date` fail with the wrapped message carrying
the constructor's detail; in particular `"2023-02-29"` (February 29 of a
non-leap year) and `"2024-13-01"` (month 13) fail, while `"2024-02-29"`
returns February 29, 2024. -/
theorem convert_to_date_impossible_dates :
    (∀ (s : String) (y m d : Int) (detail : String),
      strptimeYMD s = some (y, m, d) → dateCtorDetail y m d = some detail →
      convert_to_date s =
        .error ("Invalid date format. Expected 'yyyy-mm-dd'. Error: " ++ detail)) ∧
    convert_to_date "2023-02-29" =
      .error "Invalid date format. Expected 'yyyy-mm-dd'. Error: day is out of range for month" ∧
    convert_to_date "2024-13-01" =
      .error ("Invalid date format. Expected 'yyyy-mm-dd'. Error: time data '2024-13-01'"
        ++ " does not match format '%Y-%m-%d'") ∧
    convert_to_date "2024-02-29" = .ok (ymd2ord 2024 2 29) := by
  refine ⟨?_, by rfl, by rfl, by rfl⟩
  intro s y m d detail hs hd
  unfold convert_to_date
  rw [hs]
  simp only [hd]

theorem convert_to_date_impossible_dates_witness :
    convert_to_date "2021-04-31" =
      .error "Invalid date format. Expected 'yyyy-mm-dd'. Error: day is out of range for month" :=
  convert_to_date_impossible_dates.1 "2021-04-31" 2021 4 31
    "day is out of range for month" (by rfl) (by rfl)

end BusinessDayFinder
